import Mathlib

/-!
Verification of the Smart-Travel-Expense-Splitter core: a shallow embedding in
Lean 4 of the balance calculator (`splitter.py`), the settlement optimizer
(`settlement.py`), the payer-totals aggregation of the analytics module
(`analytics.py`), and the per-participant explanation helper (`utils.py`),
together with theorems settling the frozen specification claims.

Modelling conventions:
- Python `Decimal` amounts are modelled as exact rationals (`ℚ`); all the
  decimal arithmetic the code performs on the values that matter here
  (addition, subtraction, division by small integers, `quantize` to two
  decimal places with `ROUND_HALF_UP`) is exact rational arithmetic.
- Dates and identifiers are Lean `String`s; the code compares date strings
  lexicographically (`<`, `<=` on `str`), which the `String` order of Lean mirrors.
- Python dicts keyed by participant id are modelled either as total functions
  (dict built over a fixed key set, absent key read as the initial zero) or as
  association lists where iteration order matters; a dict-comprehension over a
  list in which a key repeats keeps the LAST value, so lookups search the
  reversed list.
-/

namespace Splitter

/-- Python `<` on single characters: code-point order. -/
def charLtB (a b : Char) : Bool := decide (a < b)

/-- Python `<` on strings, on the underlying character lists: lexicographic,
a strict prefix is smaller. -/
def strLtAux : List Char → List Char → Bool
  | [], [] => false
  | [], _ :: _ => true
  | _ :: _, [] => false
  | a :: as, b :: bs =>
    if charLtB a b then true
    else if charLtB b a then false
    else strLtAux as bs

/-- Python string `<` as the code compares YYYY-MM-DD dates. -/
def strLt (a b : String) : Bool := strLtAux a.data b.data

/-- A participant record as consumed by `splitter.py` / `utils.py`:
`participant_id`, `start_date` (YYYY-MM-DD), optional `end_date`. -/
structure Participant where
  participant_id : String
  start_date : String
  end_date : Option String
deriving DecidableEq

/-- An expense record carrying every field the embedded modules read:
`payer_id`, `amount`, `beneficiaries`, `date` (splitter), `category`
(analytics, utils), optional `expense_id` (utils). -/
structure Expense where
  payer_id : String
  amount : ℚ
  beneficiaries : List String
  date : String
  category : String
  expense_id : Option String
deriving DecidableEq

/-- One entry of the output of `calculate_balances`. -/
structure Balance where
  total_paid : ℚ
  total_share : ℚ
  net_balance : ℚ
deriving DecidableEq

/-- `splitter._is_participant_active_on_date`: active iff
`date >= start_date` and (`end_date is None` or `date <= end_date`);
the comparisons are Python string comparisons on YYYY-MM-DD dates. -/
def is_participant_active_on_date (p : Participant) (date : String) : Bool :=
  if strLt date p.start_date then false
  else
    match p.end_date with
    | some ed => if strLt ed date then false else true
    | none => true

/-- Round-half-up of a rational to an integer: nearest integer, ties away
from zero — the semantics of `decimal.ROUND_HALF_UP`. -/
def halfUp (y : ℚ) : ℤ :=
  if 0 ≤ y then ⌊y + 1/2⌋ else -⌊-y + 1/2⌋

/-- `_round_decimal`: `value.quantize(Decimal("0.01"), rounding=ROUND_HALF_UP)`,
i.e. round-half-up at the second decimal place. -/
def roundDec (x : ℚ) : ℚ := (halfUp (100 * x) : ℚ) / 100

/-- The lookup map `{p["participant_id"]: p for p in participants}`:
on a duplicated id the later record wins, so look from the right. -/
def participantMap (ps : List Participant) (pid : String) : Option Participant :=
  ps.reverse.find? (fun p => p.participant_id == pid)

/-- `payer_id in balances`: the balances dict is keyed by the ids occurring in
the participants list. -/
def isKnown (ps : List Participant) (pid : String) : Bool :=
  ps.any (fun p => p.participant_id == pid)

/-- The eligible-beneficiary list of one expense (`splitter.calculate_balances`
lines 141–151, and identically `utils._get_eligible_beneficiaries`): the
beneficiaries that are known participants and active on the expense date,
in list order, occurrences kept. -/
def eligibleBeneficiaries (ps : List Participant) (e : Expense) : List String :=
  e.beneficiaries.filter (fun b =>
    match participantMap ps b with
    | none => false
    | some p => is_participant_active_on_date p e.date)

/-- The running balances state: participant id to (total_paid, total_share),
still unrounded.  The real dict has exactly the known ids as keys; entries the
code never touches stay at the initial zeros, so a total function is faithful. -/
def addShare (share : ℚ) (st : String → ℚ × ℚ) (b : String) : String → ℚ × ℚ :=
  fun pid => if pid = b then ((st pid).1, (st pid).2 + share) else st pid

/-- The body of the `for expense in expenses` loop of `calculate_balances`:
add the amount to the `total_paid` of a known payer; if the eligible list is empty
skip; otherwise add `amount / len(eligible)` to the `total_share` of each eligible occurrence. -/
def processExpense (ps : List Participant) (st : String → ℚ × ℚ) (e : Expense) :
    String → ℚ × ℚ :=
  let st1 : String → ℚ × ℚ := fun pid =>
    if pid = e.payer_id ∧ isKnown ps e.payer_id = true
    then ((st pid).1 + e.amount, (st pid).2) else st pid
  let elig := eligibleBeneficiaries ps e
  if elig.length = 0 then st1
  else elig.foldl (addShare (e.amount / (elig.length : ℚ))) st1

/-- The unrounded accumulation phase of `calculate_balances` (lines 122–162). -/
def rawBalances (ps : List Participant) (es : List Expense) : String → ℚ × ℚ :=
  es.foldl (processExpense ps) (fun _ => (0, 0))

/-- `splitter.calculate_balances`: the final rounding phase (lines 164–177)
applied to the accumulated state.  The returned dict holds this value at every
known participant id. -/
def calculate_balances (ps : List Participant) (es : List Expense) (pid : String) :
    Balance :=
  let st := rawBalances ps es pid
  { total_paid := roundDec st.1
    total_share := roundDec st.2
    net_balance := roundDec (st.1 - st.2) }

/-- The key set of the balances dict: the participant ids, first occurrence
kept, duplicates dropped. -/
def participantIds (ps : List Participant) : List String :=
  (ps.map (fun p => p.participant_id)).dedup

/-- `sum(total_paid)` over the returned balances dict. -/
def sumPaid (ps : List Participant) (es : List Expense) : ℚ :=
  ((participantIds ps).map (fun pid => (calculate_balances ps es pid).total_paid)).sum

/-- `sum(total_share)` over the returned balances dict. -/
def sumShare (ps : List Participant) (es : List Expense) : ℚ :=
  ((participantIds ps).map (fun pid => (calculate_balances ps es pid).total_share)).sum

/-- What one expense adds to the `total_paid` of a participant: the amount when the
participant is the (known) payer, else nothing. -/
def paidDelta (ps : List Participant) (e : Expense) (pid : String) : ℚ :=
  if pid = e.payer_id ∧ isKnown ps e.payer_id = true then e.amount else 0

/-- What one expense adds to the `total_share` of a participant: one equal share
per occurrence among the eligible beneficiaries, nothing when the eligible
list is empty. -/
def shareDelta (ps : List Participant) (e : Expense) (pid : String) : ℚ :=
  let elig := eligibleBeneficiaries ps e
  if elig.length = 0 then 0
  else (elig.count pid : ℚ) * (e.amount / (elig.length : ℚ))

end Splitter

/-- One settlement transaction of `settlement.optimize_settlements`. -/
structure Settlement where
  from_participant : String
  to_participant : String
  amount : ℚ
deriving DecidableEq

namespace Settlement

open Splitter (Balance roundDec)

/-- `EPSILON = Decimal("0.01")`: the threshold below which a balance counts
as settled. -/
def EPSILON : ℚ := 1 / 100

/-- The `while` loop of `optimize_settlements` (lines 110–137), recast as
recursion over the two worklists: the current debtor/creditor are the heads,
advancing an index is dropping the head.  The loop settles
`s = min debt credit`, emits a transaction when `s ≥ EPSILON`, and advances
each side whose remaining amount fell below `EPSILON`; since `s` is the
minimum, the side not advanced by its own test has remaining exactly `0`
(`< EPSILON`), so the two independent advance tests of the source reduce to
the cases below. -/
def greedyLoop : List (String × ℚ) → List (String × ℚ) → List Settlement
  | [], _ => []
  | _ :: _, [] => []
  | (d, da) :: ds, (c, ca) :: cs =>
    let s := min da ca
    let rest :=
      if da - s < EPSILON then
        if ca - s < EPSILON then greedyLoop ds cs
        else greedyLoop ds ((c, ca - s) :: cs)
      else greedyLoop ((d, da - s) :: ds) cs
    if EPSILON ≤ s then ⟨d, c, roundDec s⟩ :: rest else rest
termination_by ds cs => ds.length + cs.length

/-- Stable insertion of one element into a sorted-descending tail of
originally-later elements: the element goes after every strictly larger one
and before equal ones, matching the stable Python
`list.sort(key=..., reverse=True)`. -/
def insertDesc (x : String × ℚ) : List (String × ℚ) → List (String × ℚ)
  | [] => [x]
  | y :: ys => if y.2 ≤ x.2 then x :: y :: ys else y :: insertDesc x ys

/-- Stable descending sort by the second component (the amount). -/
def sortDesc : List (String × ℚ) → List (String × ℚ)
  | [] => []
  | x :: xs => insertDesc x (sortDesc xs)

/-- The debtor worklist of `optimize_settlements` (lines 86–98): the pairs
`(participant_id, |net_balance|)` over entries with `net_balance < -EPSILON`,
sorted descending by amount. -/
def debtors (balances : List (String × Balance)) : List (String × ℚ) :=
  sortDesc ((balances.filter (fun pb => pb.2.net_balance < -EPSILON)).map
    (fun pb => (pb.1, |pb.2.net_balance|)))

/-- The creditor worklist of `optimize_settlements` (lines 86–101): the pairs
`(participant_id, net_balance)` over entries with `net_balance > EPSILON`,
sorted descending by amount. -/
def creditors (balances : List (String × Balance)) : List (String × ℚ) :=
  sortDesc ((balances.filter (fun pb => EPSILON < pb.2.net_balance)).map
    (fun pb => (pb.1, pb.2.net_balance)))

/-- `settlement.optimize_settlements`: the balances dict is given as its
association list in iteration order. -/
def optimize_settlements (balances : List (String × Balance)) : List Settlement :=
  greedyLoop (debtors balances) (creditors balances)

end Settlement

namespace Analytics

open Splitter (Expense roundDec)

/-- The `payer_totals` accumulator of `analytics.generate_analytics`
(lines 83–97): a `defaultdict(Decimal)` from payer id to the summed amounts,
modelled as a total function whose value at an id that never paid is the
default `0`. -/
def payer_totals (es : List Expense) : String → ℚ :=
  es.foldl (fun acc e => fun pid => if pid = e.payer_id then acc pid + e.amount else acc pid)
    (fun _ => 0)

/-- The `payer_totals` entry of the returned analytics dict (lines 121–124):
the accumulated amount rounded to 2 decimals; an id with no expense reads the
default `0` (a participant who paid nothing has no entry in the dict, i.e. a
paid figure of zero). -/
def payer_totals_rounded (es : List Expense) (pid : String) : ℚ :=
  roundDec (payer_totals es pid)

end Analytics

namespace Utils

open Splitter (Participant Expense Balance roundDec participantMap eligibleBeneficiaries
  is_participant_active_on_date)

/-- One entry of `expense_contributions` built by
`utils.explain_participant_share` (lines 199–207). -/
structure Contribution where
  expense_id : String
  category : String
  date : String
  total_expense_amount : ℚ
  beneficiaries : List String
  num_beneficiaries : Nat
  participant_share : ℚ
deriving DecidableEq

/-- The record returned by `utils.explain_participant_share`; the `error` key
is present (`some`) only on the participant-not-found path. -/
structure ShareExplanation where
  participant_id : String
  expense_contributions : List Contribution
  total_share : ℚ
  total_paid : ℚ
  net_balance : ℚ
  error : Option String
deriving DecidableEq

/-- `balances.get(participant_id, {zeros})` on the balances dict, given as its
association list; a repeated key in a Python dict keeps the last value. -/
def lookupBalance (balances : List (String × Balance)) (pid : String) : Balance :=
  match balances.reverse.find? (fun b => b.1 == pid) with
  | some b => b.2
  | none => { total_paid := 0, total_share := 0, net_balance := 0 }

/-- `utils.explain_participant_share` (lines 115–219).  The loop body is a
`filterMap` over the expenses: an expense produces a contribution when the
participant is listed among its beneficiaries, is active on its date, and the
eligible-beneficiary list (recomputed by `utils._get_eligible_beneficiaries`,
textually the same filter as in `splitter.py`) is non-empty.  The returned
totals are taken from the `balances` argument, except on the unknown-
participant path, which returns hard-coded zeros and the error message. -/
def explain_participant_share (participant_id : String) (participants : List Participant)
    (expenses : List Expense) (balances : List (String × Balance)) : ShareExplanation :=
  let balance_info := lookupBalance balances participant_id
  match participantMap participants participant_id with
  | none =>
      { participant_id := participant_id
        expense_contributions := []
        total_share := 0
        total_paid := 0
        net_balance := 0
        error := some ("Participant " ++ participant_id ++ " not found") }
  | some participant =>
      let contributions := expenses.filterMap (fun e =>
        if participant_id ∈ e.beneficiaries then
          if is_participant_active_on_date participant e.date then
            let elig := eligibleBeneficiaries participants e
            if elig.length = 0 then none
            else some
              { expense_id := e.expense_id.getD "N/A"
                category := e.category
                date := e.date
                total_expense_amount := roundDec e.amount
                beneficiaries := elig
                num_beneficiaries := elig.length
                participant_share := roundDec (e.amount / (elig.length : ℚ)) }
          else none
        else none)
      { participant_id := participant_id
        expense_contributions := contributions
        total_share := balance_info.total_share
        total_paid := balance_info.total_paid
        net_balance := balance_info.net_balance
        error := none }

end Utils

namespace Settlement

open Splitter (Balance)

/-- A concrete balances dict in which every net balance is within one cent of
zero. -/
def balancesNearZero : List (String × Balance) :=
  [("A", { total_paid := 3/2, total_share := 149/100, net_balance := 1/100 }),
   ("B", { total_paid := 0, total_share := 1/100, net_balance := -1/100 })]

end Settlement

namespace Splitter

/-- Two always-active participants `A` and `B`. -/
def participantsAB : List Participant :=
  [{ participant_id := "A", start_date := "2024-01-01", end_date := none },
   { participant_id := "B", start_date := "2024-01-01", end_date := none }]

/-- Two expenses producing `A`-totals paid `0.014` and share `0.006`: the net
rounded from the unrounded totals is `0.01`, while rounding the difference of
the two already-rounded figures gives `0`. -/
def expensesNetRound : List Expense :=
  [{ payer_id := "A", amount := 7/500, beneficiaries := ["B"],
     date := "2024-06-01", category := "food", expense_id := none },
   { payer_id := "B", amount := 3/250, beneficiaries := ["A", "B"],
     date := "2024-06-01", category := "food", expense_id := none }]

/-- Six always-active participants `A` … `F`. -/
def participantsSix : List Participant :=
  [{ participant_id := "A", start_date := "2024-01-01", end_date := none },
   { participant_id := "B", start_date := "2024-01-01", end_date := none },
   { participant_id := "C", start_date := "2024-01-01", end_date := none },
   { participant_id := "D", start_date := "2024-01-01", end_date := none },
   { participant_id := "E", start_date := "2024-01-01", end_date := none },
   { participant_id := "F", start_date := "2024-01-01", end_date := none }]

/-- One expense of `0.075` paid by `A` split equally among five others: every
per-person share of `0.015` rounds up to `0.02`. -/
def expenseFiveWay : Expense :=
  { payer_id := "A", amount := 3/40, beneficiaries := ["B", "C", "D", "E", "F"],
    date := "2024-06-01", category := "food", expense_id := none }

/-- An expense whose beneficiary list holds `B` twice. -/
def expenseDupB : Expense :=
  { payer_id := "A", amount := 30, beneficiaries := ["B", "B", "A"],
    date := "2024-06-01", category := "food", expense_id := none }

/-- An expense whose only listed beneficiary is unknown, so its eligible list
is empty. -/
def expenseNoEligible : Expense :=
  { payer_id := "A", amount := 50, beneficiaries := ["X"],
    date := "2024-06-01", category := "food", expense_id := none }

end Splitter

namespace Utils

open Splitter (Balance)

/-- A balances dict that carries values for the unknown id `Z`, to exhibit
that the not-found path ignores the balances argument. -/
def balancesWithZ : List (String × Balance) :=
  [("Z", { total_paid := 5, total_share := 5, net_balance := 5 })]

end Utils

namespace Splitter

theorem foldl_addShare_fst (sh : ℚ) (l : List String) (st : String → ℚ × ℚ) (pid : String) :
    ((l.foldl (addShare sh) st) pid).1 = (st pid).1 := by
  induction l generalizing st with
  | nil => rfl
  | cons b bs ih =>
    simp only [List.foldl_cons, ih]
    simp only [addShare]
    split <;> rfl

theorem foldl_addShare_snd (sh : ℚ) (l : List String) (st : String → ℚ × ℚ) (pid : String) :
    ((l.foldl (addShare sh) st) pid).2 = (st pid).2 + (l.count pid : ℚ) * sh := by
  induction l generalizing st with
  | nil => simp
  | cons b bs ih =>
    simp only [List.foldl_cons, ih]
    simp only [addShare, List.count_cons]
    by_cases h : pid = b
    · subst h
      simp
      ring
    · have hb : ¬ (b = pid) := fun hb => h hb.symm
      simp [h, hb]

theorem processExpense_apply (ps : List Participant) (st : String → ℚ × ℚ) (e : Expense)
    (pid : String) :
    (processExpense ps st e) pid =
      ((st pid).1 + paidDelta ps e pid, (st pid).2 + shareDelta ps e pid) := by
  simp only [processExpense, paidDelta, shareDelta]
  by_cases hlen : (eligibleBeneficiaries ps e).length = 0
  · simp only [hlen, if_pos rfl, ite_true]
    by_cases hc : pid = e.payer_id ∧ isKnown ps e.payer_id = true
    · simp [hc]
    · simp [hc]
  · simp only [hlen, ite_false]
    ext
    · rw [foldl_addShare_fst]
      by_cases hc : pid = e.payer_id ∧ isKnown ps e.payer_id = true
      · simp [hc]
      · simp [hc]
    · rw [foldl_addShare_snd]
      by_cases hc : pid = e.payer_id ∧ isKnown ps e.payer_id = true
      · simp [hc]
      · simp [hc]

theorem rawBalances_eq (ps : List Participant) (es : List Expense) (pid : String) :
    rawBalances ps es pid =
      ((es.map (fun e => paidDelta ps e pid)).sum,
       (es.map (fun e => shareDelta ps e pid)).sum) := by
  have key : ∀ (st : String → ℚ × ℚ),
      ((es.foldl (processExpense ps) st) pid) =
        ((st pid).1 + (es.map (fun e => paidDelta ps e pid)).sum,
         (st pid).2 + (es.map (fun e => shareDelta ps e pid)).sum) := by
    induction es with
    | nil => intro st; simp
    | cons e rest ih =>
      intro st
      simp only [List.foldl_cons, ih, processExpense_apply, List.map_cons, List.sum_cons]
      rw [Prod.mk.injEq]
      constructor <;> ring
  simp [rawBalances, key]

end Splitter

namespace Splitter

theorem abs_halfUp_sub (y : ℚ) : |(halfUp y : ℚ) - y| ≤ 1 / 2 := by
  rw [abs_le]
  unfold halfUp
  by_cases hy : 0 ≤ y
  · simp only [hy, if_pos, if_true]
    have h1 : ((⌊y + 1/2⌋ : ℤ) : ℚ) ≤ y + 1/2 := Int.floor_le _
    have h2 : y + 1/2 < (⌊y + 1/2⌋ : ℚ) + 1 := Int.lt_floor_add_one _
    constructor <;> [linarith; linarith]
  · simp only [hy, if_neg, if_false]
    have h1 : ((⌊-y + 1/2⌋ : ℤ) : ℚ) ≤ -y + 1/2 := Int.floor_le _
    have h2 : -y + 1/2 < (⌊-y + 1/2⌋ : ℚ) + 1 := Int.lt_floor_add_one _
    push_cast
    constructor <;> linarith

theorem abs_roundDec_sub (x : ℚ) : |roundDec x - x| ≤ 1 / 200 := by
  have h := abs_halfUp_sub (100 * x)
  have hx : roundDec x - x = ((halfUp (100 * x) : ℚ) - 100 * x) / 100 := by
    rw [roundDec]; ring
  rw [hx, abs_div]
  rw [abs_of_pos (by norm_num : (0:ℚ) < 100)]
  linarith

theorem sum_map_add {α : Type*} (l : List α) (u v : α → ℚ) :
    (l.map (fun x => u x + v x)).sum = (l.map u).sum + (l.map v).sum := by
  induction l with
  | nil => simp
  | cons a as ih => simp [ih]; ring

theorem sum_sub_sum_abs_le {α : Type*} (l : List α) (f g : α → ℚ) (c : ℚ)
    (h : ∀ a ∈ l, |f a - g a| ≤ c) :
    |(l.map f).sum - (l.map g).sum| ≤ (l.length : ℚ) * c := by
  induction l with
  | nil => simp
  | cons a as ih =>
    have ha := h a (List.mem_cons_self a as)
    have hrest := ih (fun x hx => h x (List.mem_cons_of_mem a hx))
    simp only [List.map_cons, List.sum_cons, List.length_cons]
    have key : f a + (as.map f).sum - (g a + (as.map g).sum)
        = (f a - g a) + ((as.map f).sum - (as.map g).sum) := by ring
    rw [key]
    calc |(f a - g a) + ((as.map f).sum - (as.map g).sum)|
        ≤ |f a - g a| + |(as.map f).sum - (as.map g).sum| := abs_add _ _
      _ ≤ c + (as.length : ℚ) * c := add_le_add ha hrest
      _ = ((as.length : ℚ) + 1) * c := by ring
      _ = (((as.length + 1 : ℕ)) : ℚ) * c := by push_cast; ring

theorem sum_map_swap {α β : Type*} (l1 : List α) (l2 : List β) (f : α → β → ℚ) :
    (l1.map (fun a => (l2.map (f a)).sum)).sum
      = (l2.map (fun b => (l1.map (fun a => f a b)).sum)).sum := by
  induction l1 with
  | nil => simp
  | cons a as ih =>
    simp only [List.map_cons, List.sum_cons, ih]
    rw [← sum_map_add]

theorem sum_map_ite_of_not_mem {α : Type*} [DecidableEq α] (l : List α) (a : α) (c : ℚ)
    (h : a ∉ l) :
    (l.map (fun x => if x = a then c else 0)).sum = 0 := by
  induction l with
  | nil => simp
  | cons b bs ih =>
    have hb : b ≠ a := fun hba => h (hba ▸ List.mem_cons_self b bs)
    have hbs : a ∉ bs := fun hm => h (List.mem_cons_of_mem b hm)
    simp [hb, ih hbs]

theorem sum_map_ite_of_nodup {α : Type*} [DecidableEq α] (l : List α) (a : α) (c : ℚ)
    (hnd : l.Nodup) (hmem : a ∈ l) :
    (l.map (fun x => if x = a then c else 0)).sum = c := by
  induction l with
  | nil => cases hmem
  | cons b bs ih =>
    rcases List.mem_cons.mp hmem with hba | hm
    · have hb2 : b = a := hba.symm
      have hnotin : a ∉ bs := by
        have hn := (List.nodup_cons.mp hnd).1
        rwa [hb2] at hn
      simp [hb2, sum_map_ite_of_not_mem bs a c hnotin]
    · have hb : b ≠ a := by
        intro hba
        exact (List.nodup_cons.mp hnd).1 (hba ▸ hm)
      simp [hb, ih (List.nodup_cons.mp hnd).2 hm]

end Splitter

namespace Splitter

theorem strLtAux_iff (xs ys : List Char) : strLtAux xs ys = true ↔ List.lt xs ys := by
  induction xs generalizing ys with
  | nil =>
    cases ys with
    | nil =>
      simp only [strLtAux, Bool.false_eq_true, false_iff]
      intro h; cases h
    | cons b bs =>
      simp only [strLtAux, true_iff]
      exact List.lt.nil b bs
  | cons a as ih =>
    cases ys with
    | nil =>
      simp only [strLtAux, Bool.false_eq_true, false_iff]
      intro h; cases h
    | cons b bs =>
      simp only [strLtAux]
      by_cases h1 : charLtB a b
      · simp only [h1, if_true, true_iff]
        exact List.lt.head as bs (by simpa [charLtB] using h1)
      · by_cases h2 : charLtB b a
        · simp [h1, h2]
          intro h
          cases h with
          | head _ _ hab => exact h1 (by simpa [charLtB] using hab)
          | tail hab hba _ => exact hba (by simpa [charLtB] using h2)
        · simp [h1, h2, ih]
          constructor
          · intro h
            exact List.lt.tail (by simpa [charLtB] using h1) (by simpa [charLtB] using h2) h
          · intro h
            cases h with
            | head _ _ hab =>
              exact absurd (by simpa [charLtB] using hab : charLtB a b = true) (by simpa using h1)
            | tail _ _ htl => exact htl

/-- The embedded Python string comparison agrees with the lexicographic
order of Lean on `String`. -/
theorem strLt_iff (a b : String) : strLt a b = true ↔ a < b := by
  rw [strLt, strLtAux_iff, String.lt_iff_toList_lt]
  exact List.lt_iff_lex_lt a.data b.data

theorem mem_participantIds_iff (ps : List Participant) (pid : String) :
    pid ∈ participantIds ps ↔ isKnown ps pid = true := by
  simp [participantIds, isKnown, List.mem_dedup, List.mem_map, List.any_eq_true]

theorem participantIds_nodup (ps : List Participant) : (participantIds ps).Nodup :=
  List.nodup_dedup _

theorem mem_eligible_known (ps : List Participant) (e : Expense) (b : String)
    (h : b ∈ eligibleBeneficiaries ps e) : isKnown ps b = true := by
  rw [eligibleBeneficiaries, List.mem_filter] at h
  obtain ⟨-, hpred⟩ := h
  cases hfind : participantMap ps b with
  | none => rw [hfind] at hpred; simp at hpred
  | some p =>
    rw [participantMap] at hfind
    have hmem : p ∈ ps.reverse := List.mem_of_find?_eq_some hfind
    have hid := List.find?_some hfind
    simp only [beq_iff_eq] at hid
    rw [isKnown, List.any_eq_true]
    exact ⟨p, List.mem_reverse.mp hmem, by simp [hid]⟩

theorem sum_map_count {α : Type*} [DecidableEq α] (l : List α) (el : List α)
    (hnd : l.Nodup) (h : ∀ x ∈ el, x ∈ l) :
    (l.map (fun x => ((el.count x : ℕ) : ℚ))).sum = (el.length : ℚ) := by
  induction el with
  | nil => simp
  | cons x rest ih =>
    have hx : x ∈ l := h x (List.mem_cons_self x rest)
    have hrest := ih (fun y hy => h y (List.mem_cons_of_mem x hy))
    have step : ∀ y : α, (((x :: rest).count y : ℕ) : ℚ)
        = ((rest.count y : ℕ) : ℚ) + (if y = x then 1 else 0) := by
      intro y
      rw [List.count_cons]
      by_cases hyx : x = y
      · simp [hyx]
      · have hxy : ¬ (y = x) := fun hc => hyx hc.symm
        simp [hyx, hxy]
    calc (l.map (fun y => (((x :: rest).count y : ℕ) : ℚ))).sum
        = (l.map (fun y => ((rest.count y : ℕ) : ℚ) + (if y = x then 1 else 0))).sum := by
          apply congrArg
          exact List.map_congr_left (fun y _ => step y)
      _ = (l.map (fun y => ((rest.count y : ℕ) : ℚ))).sum
            + (l.map (fun y => if y = x then (1:ℚ) else 0)).sum := sum_map_add l _ _
      _ = (rest.length : ℚ) + 1 := by
          rw [hrest, sum_map_ite_of_nodup l x 1 hnd hx]
      _ = ((x :: rest).length : ℚ) := by
          simp [List.length_cons]

end Splitter

namespace Settlement

theorem greedyLoop_length_aux : ∀ (n : ℕ) (ds cs : List (String × ℚ)),
    ds.length + cs.length ≤ n →
    (greedyLoop ds cs).length ≤ ds.length + cs.length - 1 := by
  intro n
  induction n with
  | zero =>
    intro ds cs h
    match ds, cs with
    | [], _ => simp [greedyLoop]
    | _ :: _, [] => simp [greedyLoop]
    | _ :: _, _ :: _ => simp at h
  | succ n ih =>
    intro ds cs h
    match ds, cs with
    | [], cs => simp [greedyLoop]
    | d :: ds, [] => simp [greedyLoop]
    | (d, da) :: ds, (c, ca) :: cs =>
      simp only [List.length_cons] at h
      have h1 : (greedyLoop ds cs).length ≤ ds.length + cs.length - 1 :=
        ih ds cs (by omega)
      have h2 : (greedyLoop ds ((c, ca - min da ca) :: cs)).length
          ≤ ds.length + ((c, ca - min da ca) :: cs).length - 1 :=
        ih _ _ (by simp; omega)
      have h3 : (greedyLoop ((d, da - min da ca) :: ds) cs).length
          ≤ ((d, da - min da ca) :: ds).length + cs.length - 1 :=
        ih _ _ (by simp; omega)
      simp only [List.length_cons] at h2 h3
      simp only [greedyLoop]
      split_ifs <;> simp only [List.length_cons] <;> omega

/-- The greedy loop performs at most `D + C − 1` iterations that emit a
transaction: every iteration fully clears at least one of the two current
parties. -/
theorem greedyLoop_length (ds cs : List (String × ℚ)) :
    (greedyLoop ds cs).length ≤ ds.length + cs.length - 1 :=
  greedyLoop_length_aux (ds.length + cs.length) ds cs le_rfl

theorem greedyLoop_mem_aux : ∀ (n : ℕ) (ds cs : List (String × ℚ)),
    ds.length + cs.length ≤ n →
    ∀ s ∈ greedyLoop ds cs,
      s.from_participant ∈ ds.map Prod.fst ∧ s.to_participant ∈ cs.map Prod.fst := by
  intro n
  induction n with
  | zero =>
    intro ds cs h
    match ds, cs with
    | [], _ => simp [greedyLoop]
    | _ :: _, [] => simp [greedyLoop]
    | _ :: _, _ :: _ => simp at h
  | succ n ih =>
    intro ds cs h
    match ds, cs with
    | [], cs => simp [greedyLoop]
    | d :: ds, [] => simp [greedyLoop]
    | (d, da) :: ds, (c, ca) :: cs =>
      simp only [List.length_cons] at h
      intro s hs
      simp only [greedyLoop] at hs
      have step : ∀ t, (t ∈ greedyLoop ds cs ∨
          t ∈ greedyLoop ds ((c, ca - min da ca) :: cs) ∨
          t ∈ greedyLoop ((d, da - min da ca) :: ds) cs) →
          t.from_participant ∈ ((d, da) :: ds).map Prod.fst ∧
          t.to_participant ∈ ((c, ca) :: cs).map Prod.fst := by
        intro t ht
        rcases ht with ht | ht | ht
        · have := ih ds cs (by omega) t ht
          exact ⟨List.mem_cons_of_mem _ this.1, List.mem_cons_of_mem _ this.2⟩
        · have := ih ds ((c, ca - min da ca) :: cs) (by simp; omega) t ht
          refine ⟨List.mem_cons_of_mem _ this.1, ?_⟩
          simpa using this.2
        · have := ih ((d, da - min da ca) :: ds) cs (by simp; omega) t ht
          refine ⟨?_, List.mem_cons_of_mem _ this.2⟩
          simpa using this.1
      split_ifs at hs <;>
      first
        | exact step s (Or.inl hs)
        | exact step s (Or.inr (Or.inl hs))
        | exact step s (Or.inr (Or.inr hs))
        | (rcases List.mem_cons.mp hs with hhead | htail
           · subst hhead
             exact ⟨by simp, by simp⟩
           · first
               | exact step s (Or.inl htail)
               | exact step s (Or.inr (Or.inl htail))
               | exact step s (Or.inr (Or.inr htail)))

theorem insertDesc_perm (x : String × ℚ) (l : List (String × ℚ)) :
    (insertDesc x l).Perm (x :: l) := by
  induction l with
  | nil => simp [insertDesc]
  | cons y ys ih =>
    rw [insertDesc]
    by_cases hle : y.2 ≤ x.2
    · simp [hle]
    · simp only [hle, if_false]
      exact (ih.cons y).trans (List.Perm.swap x y ys)

theorem sortDesc_perm (l : List (String × ℚ)) : (sortDesc l).Perm l := by
  induction l with
  | nil => simp [sortDesc]
  | cons x xs ih =>
    rw [sortDesc]
    exact (insertDesc_perm x (sortDesc xs)).trans (ih.cons x)

end Settlement

namespace Settlement

open Splitter (Balance)

theorem greedyLoop_mem (ds cs : List (String × ℚ)) :
    ∀ s ∈ greedyLoop ds cs,
      s.from_participant ∈ ds.map Prod.fst ∧ s.to_participant ∈ cs.map Prod.fst :=
  greedyLoop_mem_aux (ds.length + cs.length) ds cs le_rfl

theorem epsilon_pos : (0 : ℚ) < EPSILON := by norm_num [EPSILON]

theorem length_filter_abs_split (l : List (String × Balance)) :
    (l.filter (fun pb => EPSILON < |pb.2.net_balance|)).length
      = (l.filter (fun pb => pb.2.net_balance < -EPSILON)).length
        + (l.filter (fun pb => EPSILON < pb.2.net_balance)).length := by
  have hε := epsilon_pos
  induction l with
  | nil => rfl
  | cons pb rest ih =>
    simp only [List.filter_cons]
    by_cases h1 : pb.2.net_balance < -EPSILON
    · have ha : EPSILON < |pb.2.net_balance| := lt_abs.mpr (Or.inr (by linarith))
      have h2 : ¬ EPSILON < pb.2.net_balance := by linarith
      simp [ha, h1, h2, ih]
      omega
    · by_cases h2 : EPSILON < pb.2.net_balance
      · have ha : EPSILON < |pb.2.net_balance| := lt_abs.mpr (Or.inl h2)
        simp [ha, h1, h2, ih]
        omega
      · have ha : ¬ EPSILON < |pb.2.net_balance| := by
          rw [lt_abs]
          push_neg
          constructor
          · linarith
          · linarith
        simp [ha, h1, h2, ih]

theorem debtors_length (balances : List (String × Balance)) :
    (debtors balances).length
      = (balances.filter (fun pb => pb.2.net_balance < -EPSILON)).length := by
  rw [debtors, (sortDesc_perm _).length_eq, List.length_map]

theorem creditors_length (balances : List (String × Balance)) :
    (creditors balances).length
      = (balances.filter (fun pb => EPSILON < pb.2.net_balance)).length := by
  rw [creditors, (sortDesc_perm _).length_eq, List.length_map]

end Settlement

namespace Settlement

open Splitter (Balance)

/-- Claim C2: for every balances input, the number of transactions returned by
`optimize_settlements` is at most (number of participants whose `|net_balance|`
exceeds `0.01`) minus 1 (natural-number subtraction: with no such participant
the output is empty). -/
theorem settlement_count_bound (balances : List (String × Balance)) :
    (optimize_settlements balances).length
      ≤ (balances.filter (fun pb => EPSILON < |pb.2.net_balance|)).length - 1 := by
  have h := greedyLoop_length (debtors balances) (creditors balances)
  rw [debtors_length, creditors_length] at h
  rw [optimize_settlements, length_filter_abs_split]
  omega

theorem not_mem_debtors (balances : List (String × Balance)) (pid : String)
    (h : ∀ pb ∈ balances, pb.1 = pid → |pb.2.net_balance| ≤ EPSILON) :
    pid ∉ (debtors balances).map Prod.fst := by
  intro hmem
  rw [debtors] at hmem
  have hperm := ((sortDesc_perm ((balances.filter
      (fun pb => pb.2.net_balance < -EPSILON)).map
      (fun pb => (pb.1, |pb.2.net_balance|)))).map Prod.fst)
  rw [hperm.mem_iff] at hmem
  rw [List.map_map] at hmem
  obtain ⟨pb, hpb, hid⟩ := List.mem_map.mp hmem
  have hfil := List.mem_filter.mp hpb
  have hlt : pb.2.net_balance < -EPSILON := by
    have := hfil.2
    simpa using this
  have habs : EPSILON < |pb.2.net_balance| := lt_abs.mpr (Or.inr (by linarith))
  have hle := h pb hfil.1 (by simpa using hid)
  linarith

theorem not_mem_creditors (balances : List (String × Balance)) (pid : String)
    (h : ∀ pb ∈ balances, pb.1 = pid → |pb.2.net_balance| ≤ EPSILON) :
    pid ∉ (creditors balances).map Prod.fst := by
  intro hmem
  rw [creditors] at hmem
  have hperm := ((sortDesc_perm ((balances.filter
      (fun pb => EPSILON < pb.2.net_balance)).map
      (fun pb => (pb.1, pb.2.net_balance)))).map Prod.fst)
  rw [hperm.mem_iff] at hmem
  rw [List.map_map] at hmem
  obtain ⟨pb, hpb, hid⟩ := List.mem_map.mp hmem
  have hfil := List.mem_filter.mp hpb
  have hlt : EPSILON < pb.2.net_balance := by
    have := hfil.2
    simpa using this
  have habs : EPSILON < |pb.2.net_balance| := lt_abs.mpr (Or.inl hlt)
  have hle := h pb hfil.1 (by simpa using hid)
  linarith

/-- Claim C9: a participant whose `|net_balance|` is within one cent of zero
(`|net| ≤ 0.01`) never appears in the output of `optimize_settlements`, neither as
`from_participant` nor as `to_participant`; and if every participant has
`|net_balance| ≤ 0.01`, the returned settlement list is empty. -/
theorem settled_participant_excluded (balances : List (String × Balance)) (pid : String)
    (h : ∀ pb ∈ balances, pb.1 = pid → |pb.2.net_balance| ≤ EPSILON) :
    (∀ s ∈ optimize_settlements balances,
        s.from_participant ≠ pid ∧ s.to_participant ≠ pid) ∧
      ((∀ pb ∈ balances, |pb.2.net_balance| ≤ EPSILON) →
        optimize_settlements balances = []) := by
  constructor
  · intro s hs
    have hmem := greedyLoop_mem (debtors balances) (creditors balances) s hs
    constructor
    · intro hfrom
      exact not_mem_debtors balances pid h (hfrom ▸ hmem.1)
    · intro hto
      exact not_mem_creditors balances pid h (hto ▸ hmem.2)
  · intro hall
    have hd : balances.filter (fun pb => pb.2.net_balance < -EPSILON) = [] := by
      rw [List.filter_eq_nil_iff]
      intro pb hpb
      simp only [decide_eq_true_eq, not_lt]
      have habs := hall pb hpb
      have := neg_abs_le pb.2.net_balance
      linarith
    have hdeb : debtors balances = [] := by
      rw [debtors, hd]
      rfl
    rw [optimize_settlements, hdeb]
    simp [greedyLoop]

end Settlement

namespace Settlement

open Splitter (Balance)

unseal Rat.add Rat.mul Rat.inv Rat.sub in
/-- Witness for C9 at a concrete input: both hypotheses hold and the theorem
applies. -/
theorem settled_participant_excluded_witness :
    (∀ pb ∈ balancesNearZero, pb.1 = "A" → |pb.2.net_balance| ≤ EPSILON) ∧
      ((∀ s ∈ optimize_settlements balancesNearZero,
          s.from_participant ≠ "A" ∧ s.to_participant ≠ "A") ∧
        ((∀ pb ∈ balancesNearZero, |pb.2.net_balance| ≤ EPSILON) →
          optimize_settlements balancesNearZero = [])) :=
  ⟨by decide, settled_participant_excluded balancesNearZero "A" (by decide)⟩

end Settlement

namespace Splitter

unseal Rat.add Rat.mul Rat.inv Rat.sub in
/-- Counterexample to claim C1 as stated: at this input the unrounded totals of `A`
are paid `0.014` and share `0.006`, so the reported net is
`round(0.008) = 0.01`, while rounding the difference of the two reported
(already-rounded) figures gives `round(0.01 - 0.01) = 0`. -/
theorem net_balance_not_from_rounded_figures :
    ¬ ((calculate_balances participantsAB expensesNetRound "A").net_balance
        = roundDec ((calculate_balances participantsAB expensesNetRound "A").total_paid
            - (calculate_balances participantsAB expensesNetRound "A").total_share)) := by
  decide

/-- Claim C1 (amended): for every input, the reported `total_paid` and
`total_share` are the round-half-up roundings of the exact accumulated
per-expense sums, and `net_balance` is the rounding of the difference of the
two UNROUNDED sums — i.e. the net is rounded independently from the unrounded
totals, not computed from the two already-rounded figures. -/
theorem net_balance_from_unrounded (ps : List Participant) (es : List Expense)
    (pid : String) :
    (calculate_balances ps es pid).total_paid
        = roundDec ((es.map (fun e => paidDelta ps e pid)).sum) ∧
      (calculate_balances ps es pid).total_share
        = roundDec ((es.map (fun e => shareDelta ps e pid)).sum) ∧
      (calculate_balances ps es pid).net_balance
        = roundDec ((es.map (fun e => paidDelta ps e pid)).sum
            - (es.map (fun e => shareDelta ps e pid)).sum) := by
  rw [calculate_balances, rawBalances_eq]
  exact ⟨rfl, rfl, rfl⟩

theorem active_iff (p : Participant) (date : String) :
    is_participant_active_on_date p date = true ↔
      (p.start_date ≤ date ∧
        (p.end_date = none ∨ ∃ ed, p.end_date = some ed ∧ date ≤ ed)) := by
  rw [is_participant_active_on_date]
  by_cases h1 : strLt date p.start_date = true
  · have hlt : date < p.start_date := (strLt_iff _ _).mp h1
    simp only [h1, if_true]
    constructor
    · intro h; cases h
    · rintro ⟨hle, -⟩
      exact absurd hlt (not_lt.mpr hle)
  · have hle : p.start_date ≤ date := by
      rw [← not_lt]
      intro hlt
      exact h1 ((strLt_iff _ _).mpr hlt)
    simp only [Bool.not_eq_true] at h1
    simp only [h1, Bool.false_eq_true, if_false]
    cases hed : p.end_date with
    | none => simp [hle]
    | some ed =>
      by_cases h2 : strLt ed date = true
      · have hlt2 : ed < date := (strLt_iff _ _).mp h2
        simp only [h2, if_true]
        constructor
        · intro h; cases h
        · rintro ⟨-, hcase⟩
          rcases hcase with hnone | ⟨ed2, hed2, hle2⟩
          · cases hnone
          · injection hed2 with hed2
            subst hed2
            exact absurd hlt2 (not_lt.mpr hle2)
      · have hle2 : date ≤ ed := by
          rw [← not_lt]
          intro hlt2
          exact h2 ((strLt_iff _ _).mpr hlt2)
        simp only [Bool.not_eq_true] at h2
        simp only [h2, Bool.false_eq_true, if_false, true_iff]
        exact ⟨hle, Or.inr ⟨ed, rfl, hle2⟩⟩

/-- Claim C6: eligibility is inclusive at both window ends: a participant is
active exactly when `start_date ≤ date` and (`end_date` is absent or
`date ≤ end_date`); in particular a participant with start date `2024-06-03`
is active on `2024-06-03` but not `2024-06-02`, and one with end date
`2024-06-10` is active on `2024-06-10` but not `2024-06-11`. -/
theorem eligibility_inclusive_boundaries :
    (∀ (p : Participant) (date : String),
        is_participant_active_on_date p date = true ↔
          (p.start_date ≤ date ∧
            (p.end_date = none ∨ ∃ ed, p.end_date = some ed ∧ date ≤ ed))) ∧
      is_participant_active_on_date
        { participant_id := "P", start_date := "2024-06-03", end_date := none }
        "2024-06-03" = true ∧
      is_participant_active_on_date
        { participant_id := "P", start_date := "2024-06-03", end_date := none }
        "2024-06-02" = false ∧
      is_participant_active_on_date
        { participant_id := "P", start_date := "2024-01-01", end_date := some "2024-06-10" }
        "2024-06-10" = true ∧
      is_participant_active_on_date
        { participant_id := "P", start_date := "2024-01-01", end_date := some "2024-06-10" }
        "2024-06-11" = false :=
  ⟨active_iff, by decide, by decide, by decide, by decide⟩

/-- Claim C7: an expense whose eligible-beneficiary list is empty adds its
amount to the `total_paid` of a known payer but to the `total_share` of nobody; the
per-expense step (and hence the whole calculation) is total — the
`len(eligible) == 0` guard skips the division, no error is raised. -/
theorem empty_eligible_no_share (ps : List Participant) (e : Expense)
    (h : eligibleBeneficiaries ps e = []) :
    (∀ (st : String → ℚ × ℚ) (pid : String),
        ((processExpense ps st e) pid).2 = (st pid).2) ∧
      (isKnown ps e.payer_id = true →
        ∀ (st : String → ℚ × ℚ),
          ((processExpense ps st e) e.payer_id).1 = (st e.payer_id).1 + e.amount) := by
  constructor
  · intro st pid
    rw [processExpense_apply]
    simp [shareDelta, h]
  · intro hk st
    rw [processExpense_apply]
    simp [paidDelta, hk]

unseal Rat.add Rat.mul Rat.inv Rat.sub in
/-- Witness for C7: an expense whose only listed beneficiary is unknown. -/
theorem empty_eligible_no_share_witness :
    eligibleBeneficiaries participantsAB expenseNoEligible = [] ∧
      ((∀ (st : String → ℚ × ℚ) (pid : String),
          ((processExpense participantsAB st expenseNoEligible) pid).2 = (st pid).2) ∧
        (isKnown participantsAB expenseNoEligible.payer_id = true →
          ∀ (st : String → ℚ × ℚ),
            ((processExpense participantsAB st expenseNoEligible)
                expenseNoEligible.payer_id).1
              = (st expenseNoEligible.payer_id).1 + expenseNoEligible.amount)) :=
  ⟨by decide, empty_eligible_no_share participantsAB expenseNoEligible (by decide)⟩

/-- Claim C8: `calculate_balances` is order-independent in its expenses list:
permuting the expenses leaves the rounded `total_paid` of every participant,
`total_share` and `net_balance` unchanged. -/
theorem calculate_balances_perm (ps : List Participant) (es es2 : List Expense)
    (h : es.Perm es2) (pid : String) :
    calculate_balances ps es pid = calculate_balances ps es2 pid := by
  have hp : (es.map (fun e => paidDelta ps e pid)).sum
      = (es2.map (fun e => paidDelta ps e pid)).sum := (h.map _).sum_eq
  have hs : (es.map (fun e => shareDelta ps e pid)).sum
      = (es2.map (fun e => shareDelta ps e pid)).sum := (h.map _).sum_eq
  rw [calculate_balances, calculate_balances, rawBalances_eq, rawBalances_eq, hp, hs]

unseal Rat.add Rat.mul Rat.inv Rat.sub in
/-- Witness for C8: swapping the two expenses of a concrete input. -/
theorem calculate_balances_perm_witness :
    calculate_balances participantsAB expensesNetRound "A"
      = calculate_balances participantsAB expensesNetRound.reverse "A" := by
  have hperm : expensesNetRound.Perm expensesNetRound.reverse :=
    (List.reverse_perm expensesNetRound).symm
  exact calculate_balances_perm participantsAB expensesNetRound
    expensesNetRound.reverse hperm "A"

end Splitter

namespace Splitter

theorem count_eligible (ps : List Participant) (e : Expense) (pid : String) (p : Participant)
    (hfind : participantMap ps pid = some p)
    (hact : is_participant_active_on_date p e.date = true) :
    (eligibleBeneficiaries ps e).count pid = e.beneficiaries.count pid := by
  rw [eligibleBeneficiaries]
  apply List.count_filter
  simp [hfind, hact]

/-- Claim C4: a participant id occurring `k > 1` times among the
beneficiaries of an expense, eligible on the expense date, is counted once per occurrence:
the eligible list keeps all `k` occurrences (so the divisor, its length,
includes them all), and the `total_share` of that participant grows by
`k * (amount / eligible_count)` for the expense. -/
theorem duplicate_beneficiary_counted_each_time (ps : List Participant) (e : Expense)
    (pid : String) (p : Participant) (k : ℕ)
    (hfind : participantMap ps pid = some p)
    (hact : is_participant_active_on_date p e.date = true)
    (hk : e.beneficiaries.count pid = k) (hk1 : 1 < k) :
    (eligibleBeneficiaries ps e).count pid = k ∧
      ∀ (st : String → ℚ × ℚ),
        ((processExpense ps st e) pid).2
          = (st pid).2 + (k : ℚ)
              * (e.amount / ((eligibleBeneficiaries ps e).length : ℚ)) := by
  have hcount : (eligibleBeneficiaries ps e).count pid = k :=
    (count_eligible ps e pid p hfind hact).trans hk
  have hne : (eligibleBeneficiaries ps e).length ≠ 0 := by
    intro hlen0
    rw [List.length_eq_zero.mp hlen0] at hcount
    simp at hcount
    omega
  refine ⟨hcount, fun st => ?_⟩
  rw [processExpense_apply]
  simp [shareDelta, hne, hcount]

unseal Rat.add Rat.mul Rat.inv Rat.sub in
/-- Witness for C4: beneficiaries `[B, B, A]`, so `B` counts twice and the
divisor is 3. -/
theorem duplicate_beneficiary_counted_each_time_witness :
    (participantMap participantsAB "B"
        = some { participant_id := "B", start_date := "2024-01-01", end_date := none } ∧
      is_participant_active_on_date
        { participant_id := "B", start_date := "2024-01-01", end_date := none }
        expenseDupB.date = true ∧
      expenseDupB.beneficiaries.count "B" = 2 ∧ 1 < 2) ∧
      ((eligibleBeneficiaries participantsAB expenseDupB).count "B" = 2 ∧
        ∀ (st : String → ℚ × ℚ),
          ((processExpense participantsAB st expenseDupB) "B").2
            = (st "B").2 + (2 : ℚ)
                * (expenseDupB.amount
                    / ((eligibleBeneficiaries participantsAB expenseDupB).length : ℚ))) :=
  ⟨⟨by decide, by decide, by decide, by decide⟩,
   duplicate_beneficiary_counted_each_time participantsAB expenseDupB "B"
     { participant_id := "B", start_date := "2024-01-01", end_date := none } 2
     (by decide) (by decide) (by decide) (by decide)⟩

end Splitter

namespace Analytics

open Splitter (Participant Expense roundDec isKnown calculate_balances rawBalances_eq
  paidDelta participantsAB expensesNetRound)

theorem payer_totals_foldl (es : List Expense) (pid : String) :
    payer_totals es pid
      = (es.map (fun e => if pid = e.payer_id then e.amount else 0)).sum := by
  have key : ∀ acc : String → ℚ,
      (es.foldl
        (fun acc e => fun q => if q = e.payer_id then acc q + e.amount else acc q) acc) pid
        = acc pid + (es.map (fun e => if pid = e.payer_id then e.amount else 0)).sum := by
    induction es with
    | nil => intro acc; simp
    | cons e rest ih =>
      intro acc
      simp only [List.foldl_cons, ih, List.map_cons, List.sum_cons]
      by_cases hpe : pid = e.payer_id
      · simp only [hpe, if_pos rfl, if_true]
        ring
      · simp [hpe]
  rw [payer_totals, key]
  simp

/-- Claim C5: the `payer_totals` map of `generate_analytics` agrees exactly
with the `total_paid` of `calculate_balances` at every known participant id: both
round the same exact sum of the paid amounts of that participant (a participant
with no expense reads the accumulator default `0`, matching a `total_paid`
of `0`; expenses with an unknown payer land only under the unknown id and
touch the figure of no known participant). -/
theorem payer_totals_match_total_paid (ps : List Participant) (es : List Expense)
    (pid : String) (h : isKnown ps pid = true) :
    payer_totals_rounded es pid = (calculate_balances ps es pid).total_paid := by
  rw [payer_totals_rounded, payer_totals_foldl, calculate_balances, rawBalances_eq]
  show roundDec _ = roundDec _
  apply congrArg
  apply congrArg
  apply List.map_congr_left
  intro e _
  rw [paidDelta]
  by_cases hpe : pid = e.payer_id
  · have hk : isKnown ps e.payer_id = true := by rw [← hpe]; exact h
    simp [hpe, hk]
  · simp [hpe]

unseal Rat.add Rat.mul Rat.inv Rat.sub in
/-- Witness for C5 at a concrete known participant. -/
theorem payer_totals_match_total_paid_witness :
    isKnown participantsAB "A" = true ∧
      payer_totals_rounded expensesNetRound "A"
        = (calculate_balances participantsAB expensesNetRound "A").total_paid :=
  ⟨by decide,
   payer_totals_match_total_paid participantsAB expensesNetRound "A" (by decide)⟩

end Analytics

namespace Splitter

theorem participantMap_eq_none (ps : List Participant) (pid : String)
    (h : isKnown ps pid = false) : participantMap ps pid = none := by
  rw [participantMap, List.find?_eq_none]
  intro p hp
  rw [isKnown] at h
  have hall := List.any_eq_false.mp h
  exact hall p (List.mem_reverse.mp hp)

end Splitter

namespace Utils

open Splitter (Participant Expense Balance isKnown participantMap participantMap_eq_none
  participantsAB expensesNetRound)

/-- Claim C10: for a participant id absent from the participants list,
`explain_participant_share` returns — without raising — a record with an empty
`expense_contributions` list, `total_share`, `total_paid` and `net_balance`
all zero, and an `error` message naming the missing participant, whatever the
expenses and balances arguments hold. -/
theorem unknown_participant_error_record (pid : String) (ps : List Participant)
    (es : List Expense) (balances : List (String × Balance))
    (h : isKnown ps pid = false) :
    explain_participant_share pid ps es balances =
      { participant_id := pid
        expense_contributions := []
        total_share := 0
        total_paid := 0
        net_balance := 0
        error := some ("Participant " ++ pid ++ " not found") } := by
  rw [explain_participant_share, participantMap_eq_none ps pid h]

unseal Rat.add Rat.mul Rat.inv Rat.sub in
/-- Witness for C10: the id `Z` is unknown even though the balances dict holds
nonzero values under `Z`. -/
theorem unknown_participant_error_record_witness :
    isKnown participantsAB "Z" = false ∧
      explain_participant_share "Z" participantsAB expensesNetRound balancesWithZ =
        { participant_id := "Z"
          expense_contributions := []
          total_share := 0
          total_paid := 0
          net_balance := 0
          error := some ("Participant " ++ "Z" ++ " not found") } :=
  ⟨by decide,
   unknown_participant_error_record "Z" participantsAB expensesNetRound balancesWithZ
     (by decide)⟩

end Utils

namespace Splitter

theorem sum_paidDelta (ps : List Participant) (e : Expense)
    (hk : isKnown ps e.payer_id = true) :
    ((participantIds ps).map (fun pid => paidDelta ps e pid)).sum = e.amount := by
  have hmem : e.payer_id ∈ participantIds ps :=
    (mem_participantIds_iff ps e.payer_id).mpr hk
  have hpt : ∀ pid, paidDelta ps e pid = if pid = e.payer_id then e.amount else 0 := by
    intro pid
    rw [paidDelta]
    by_cases hpe : pid = e.payer_id
    · simp [hpe, hk]
    · simp [hpe]
  rw [List.map_congr_left (fun pid _ => hpt pid)]
  exact sum_map_ite_of_nodup (participantIds ps) e.payer_id e.amount
    (participantIds_nodup ps) hmem

theorem sum_shareDelta (ps : List Participant) (e : Expense)
    (hne : eligibleBeneficiaries ps e ≠ []) :
    ((participantIds ps).map (fun pid => shareDelta ps e pid)).sum = e.amount := by
  have hlen : (eligibleBeneficiaries ps e).length ≠ 0 := by
    simpa [List.length_eq_zero] using hne
  have hsub : ∀ x ∈ eligibleBeneficiaries ps e, x ∈ participantIds ps := fun x hx =>
    (mem_participantIds_iff ps x).mpr (mem_eligible_known ps e x hx)
  have hpt : ∀ pid, shareDelta ps e pid
      = (((eligibleBeneficiaries ps e).count pid : ℕ) : ℚ)
          * (e.amount / ((eligibleBeneficiaries ps e).length : ℚ)) := by
    intro pid
    rw [shareDelta]
    simp [hlen]
  rw [List.map_congr_left (fun pid _ => hpt pid)]
  rw [List.sum_map_mul_right, sum_map_count (participantIds ps)
    (eligibleBeneficiaries ps e) (participantIds_nodup ps) hsub]
  have hcast : ((eligibleBeneficiaries ps e).length : ℚ) ≠ 0 :=
    Nat.cast_ne_zero.mpr hlen
  field_simp

unseal Rat.add Rat.mul Rat.inv Rat.sub in
/-- Counterexample to claim C3 as stated: one expense of `0.075` paid by `A`
for `[B, C, D, E, F]` gives a rounded paid sum of `0.08` but a rounded share
sum of `5 × 0.02 = 0.10`: the gap of `0.02` exceeds `0.01 ×` (number of
expenses `= 1`), although every beneficiary is known, active and eligible. -/
theorem balance_conservation_counterexample :
    ¬ (|sumPaid participantsSix [expenseFiveWay]
          - sumShare participantsSix [expenseFiveWay]|
        ≤ (1 / 100) * (([expenseFiveWay] : List Expense).length : ℚ)) := by
  decide

/-- Claim C3 (amended): when every expense has a known payer, known
beneficiaries and a non-empty eligible-beneficiary list, the sums of the
reported `total_paid` and `total_share` agree within `0.01 ×` (number of
participants) — the per-participant final rounding moves each reported figure
by at most half a cent, so the tolerance scales with the participant count,
not the expense count. -/
theorem balance_conservation (ps : List Participant) (es : List Expense)
    (hpayer : ∀ e ∈ es, isKnown ps e.payer_id = true)
    (hben : ∀ e ∈ es, ∀ b ∈ e.beneficiaries, isKnown ps b = true)
    (helig : ∀ e ∈ es, eligibleBeneficiaries ps e ≠ []) :
    |sumPaid ps es - sumShare ps es|
      ≤ ((participantIds ps).length : ℚ) * (1 / 100) := by
  have hpaidraw : ((participantIds ps).map (fun pid => (rawBalances ps es pid).1)).sum
      = (es.map (fun e => e.amount)).sum := by
    calc ((participantIds ps).map (fun pid => (rawBalances ps es pid).1)).sum
        = ((participantIds ps).map
            (fun pid => (es.map (fun e => paidDelta ps e pid)).sum)).sum := by
          apply congrArg
          apply List.map_congr_left
          intro pid _
          rw [rawBalances_eq]
      _ = (es.map (fun e =>
            ((participantIds ps).map (fun pid => paidDelta ps e pid)).sum)).sum :=
          sum_map_swap (participantIds ps) es _
      _ = (es.map (fun e => e.amount)).sum := by
          apply congrArg
          apply List.map_congr_left
          intro e he
          exact sum_paidDelta ps e (hpayer e he)
  have hshareraw : ((participantIds ps).map (fun pid => (rawBalances ps es pid).2)).sum
      = (es.map (fun e => e.amount)).sum := by
    calc ((participantIds ps).map (fun pid => (rawBalances ps es pid).2)).sum
        = ((participantIds ps).map
            (fun pid => (es.map (fun e => shareDelta ps e pid)).sum)).sum := by
          apply congrArg
          apply List.map_congr_left
          intro pid _
          rw [rawBalances_eq]
      _ = (es.map (fun e =>
            ((participantIds ps).map (fun pid => shareDelta ps e pid)).sum)).sum :=
          sum_map_swap (participantIds ps) es _
      _ = (es.map (fun e => e.amount)).sum := by
          apply congrArg
          apply List.map_congr_left
          intro e he
          exact sum_shareDelta ps e (helig e he)
  have hpaid : |sumPaid ps es
      - ((participantIds ps).map (fun pid => (rawBalances ps es pid).1)).sum|
      ≤ ((participantIds ps).length : ℚ) * (1 / 200) := by
    rw [sumPaid]
    exact sum_sub_sum_abs_le (participantIds ps)
      (fun pid => (calculate_balances ps es pid).total_paid)
      (fun pid => (rawBalances ps es pid).1) (1 / 200)
      (fun pid _ => abs_roundDec_sub _)
  have hshare : |sumShare ps es
      - ((participantIds ps).map (fun pid => (rawBalances ps es pid).2)).sum|
      ≤ ((participantIds ps).length : ℚ) * (1 / 200) := by
    rw [sumShare]
    exact sum_sub_sum_abs_le (participantIds ps)
      (fun pid => (calculate_balances ps es pid).total_share)
      (fun pid => (rawBalances ps es pid).2) (1 / 200)
      (fun pid _ => abs_roundDec_sub _)
  have hsplit : sumPaid ps es - sumShare ps es
      = (sumPaid ps es
          - ((participantIds ps).map (fun pid => (rawBalances ps es pid).1)).sum)
        - (sumShare ps es
          - ((participantIds ps).map (fun pid => (rawBalances ps es pid).2)).sum) := by
    rw [hpaidraw, hshareraw]
    ring
  rw [hsplit]
  calc |_ - _| ≤ |_| + |_| := abs_sub _ _
    _ ≤ ((participantIds ps).length : ℚ) * (1 / 200)
        + ((participantIds ps).length : ℚ) * (1 / 200) := add_le_add hpaid hshare
    _ = ((participantIds ps).length : ℚ) * (1 / 100) := by ring

unseal Rat.add Rat.mul Rat.inv Rat.sub in
/-- Witness for the amended C3 at the five-way-split input: the gap `0.02`
stays within `0.01 × 6` participants. -/
theorem balance_conservation_witness :
    (∀ e ∈ ([expenseFiveWay] : List Expense),
        isKnown participantsSix e.payer_id = true) ∧
      (∀ e ∈ ([expenseFiveWay] : List Expense),
        ∀ b ∈ e.beneficiaries, isKnown participantsSix b = true) ∧
      (∀ e ∈ ([expenseFiveWay] : List Expense),
        eligibleBeneficiaries participantsSix e ≠ []) ∧
      |sumPaid participantsSix [expenseFiveWay]
          - sumShare participantsSix [expenseFiveWay]|
        ≤ ((participantIds participantsSix).length : ℚ) * (1 / 100) :=
  ⟨by decide, by decide, by decide,
   balance_conservation participantsSix [expenseFiveWay]
     (by decide) (by decide) (by decide)⟩

end Splitter
